import Mathlib

/-!
Verification of the drone CI scheduler queue (`scheduler/queue/queue.go`) and
build manager (`operator/manager`, provided as `src/unnamed/part_000`).

The Go code is embedded shallowly: structs become Lean structures, `int64`
and `int` fields become `Int`, Go `map[string]string` values become
association lists (`List (String × String)`), and the stores and other
collaborators (which are interfaces injected into the manager) become
explicit parameters describing the outcome of each collaborator call.
Side effects (store writes, scheduler signals, status/webhook sends) are
recorded in an explicit effect list so that theorems can speak about which
writes a call performs.

The `core` package of the repository (entity definitions and the
`IsDone` helpers) is not part of the provided sources; the status
enumeration and `isDone` are modelled from the spec and are marked as such.
-/

namespace Drone

/-- Modelled from the spec: the `core` package defining the status constants
(`core.StatusPending` etc.) is not among the provided sources.  The spec (§3)
lists the build/stage/step statuses as pending, running, passing, failing,
killed, skipped, error, blocked, declined, waiting_on_deps, and waiting. -/
inductive Status where
  | waiting
  | pending
  | running
  | passing
  | failing
  | killed
  | skipped
  | error
  | blocked
  | declined
  | waitingOnDeps
deriving DecidableEq, Repr

/-- Modelled from the spec: `core.Stage.IsDone` / `core.Step.IsDone` live in the
missing `core` package.  Per the spec (§3) a status is terminal iff it is one of
passing, failing, killed, skipped, error. -/
def Status.isDone : Status → Bool
  | .passing => true
  | .failing => true
  | .killed => true
  | .skipped => true
  | .error => true
  | _ => false

/-- `core.Build`: the fields used by the queue and the manager. -/
structure Build where
  id : Int
  repoID : Int
  number : Int
  status : Status
  source : String
  started : Int
  finished : Int
deriving DecidableEq, Repr

/-- `core.Step`: the fields used by `Manager.Cancel`. -/
structure Step where
  id : Int
  stageID : Int
  name : String
  number : Int
  status : Status
  started : Int
  stopped : Int
  exitCode : Int
deriving DecidableEq, Repr

/-- `core.Stage`: the fields used by the queue and the manager, with the
denormalized `Build` reference and embedded `Steps` used by
`withinBranchLimits` and `Manager.Cancel`. -/
structure Stage where
  id : Int
  buildID : Int
  repoID : Int
  name : String
  number : Int
  os : String
  arch : String
  variant : String
  kernel : String
  labels : List (String × String)
  machine : String
  status : Status
  started : Int
  stopped : Int
  updated : Int
  limit : Int
  build : Build
  steps : List Step
deriving DecidableEq, Repr

def Stage.isDone (s : Stage) : Bool := s.status.isDone

def Step.isDone (s : Step) : Bool := s.status.isDone

/-- The `worker` struct of `scheduler/queue/queue.go` (without the Go channel,
which only carries the delivered stage back to the caller). -/
structure Worker where
  os : String
  arch : String
  kernel : String
  variant : String
  labels : List (String × String)
deriving DecidableEq, Repr

/-- Go map lookup `m[k]` on an association list: the value of the first pair
whose key is `k` (a Go map has at most one pair per key). -/
def lookupKey : List (String × String) → String → Option String
  | [], _ => none
  | (k, v) :: rest, key => if k = key then some v else lookupKey rest key

/-- `checkLabels` from `scheduler/queue/queue.go`: the two maps have the same
size and every entry of `a` is present in `b` with the same value. -/
def checkLabels (a b : List (String × String)) : Bool :=
  a.length == b.length && a.all (fun p => lookupKey b p.1 == some p.2)

/-- `withinLimits` from `scheduler/queue/queue.go`: a stage with `limit = 0`
always passes; otherwise it counts the siblings with the same repo, a
different id, the same name and a smaller id, and passes iff the count is
below the limit. -/
def withinLimits (stage : Stage) (siblings : List Stage) : Bool :=
  if stage.limit == 0 then true
  else
    let count := (siblings.filter (fun s =>
      s.repoID == stage.repoID && s.id != stage.id &&
      s.name == stage.name && decide (s.id < stage.id))).length
    decide ((count : Int) < stage.limit)

/-- The loop body of `withinBranchLimits`: scan the siblings in order and
return the first one belonging to a different build of the same repo where
both builds have source "master".  The Go loop returns at this first
qualifying sibling, so locating it and then comparing build ids is the same
control flow. -/
def findMasterSibling (stage : Stage) : List Stage → Option Stage
  | [] => none
  | sibling :: rest =>
    if sibling.buildID == stage.buildID || sibling.repoID != stage.repoID then
      findMasterSibling stage rest
    else if sibling.build.source == "master" && stage.build.source == "master" then
      some sibling
    else
      findMasterSibling stage rest

/-- `withinBranchLimits` from `scheduler/queue/queue.go`: a stage of a running
build always passes; otherwise the first master-branch sibling of another
build in the same repo decides: pass iff this stage's build is older. -/
def withinBranchLimits (stage : Stage) (siblings : List Stage) : Bool :=
  if stage.build.status == Status.running then true
  else
    match findMasterSibling stage siblings with
    | some sibling => decide (stage.buildID < sibling.buildID)
    | none => true

/-- The worker-matching conditions of the inner loop of `queue.signal`:
the worker passes each `continue` test for the item. -/
def platformMatch (w : Worker) (item : Stage) : Bool :=
  w.os == item.os &&
  w.arch == item.arch &&
  (item.variant == "" || item.variant == w.variant) &&
  (item.kernel == "" || item.kernel == w.kernel) &&
  (if item.labels.length > 0 || w.labels.length > 0 then
    checkLabels item.labels w.labels
  else true)

/-- The inner loop of `queue.signal`: find the first waiting worker matching
the item; on success the worker is removed from the waiting set (the Go code
deletes it from `q.workers` after the channel send). -/
def extractWorker (item : Stage) : List Worker → Option (Worker × List Worker)
  | [] => none
  | w :: ws =>
    if platformMatch w item then some (w, ws)
    else
      match extractWorker item ws with
      | some (w2, rest) => some (w2, w :: rest)
      | none => none

/-- The per-item eligibility filters of `queue.signal`, in source order:
branch limits, not already running, not already assigned to a machine,
within concurrency limits.  Eligibility is evaluated against the full
fetched list `items`. -/
def eligible (item : Stage) (items : List Stage) : Bool :=
  withinBranchLimits item items &&
  !(item.status == Status.running) &&
  item.machine == "" &&
  withinLimits item items

/-- The outer loop of `queue.signal`: walk the fetched items in order; for
each eligible item hand it to the first matching waiting worker (if any) and
remove that worker before continuing.  Returns the list of (stage, worker)
deliveries of the pass. -/
def dispatchAux (all : List Stage) : List Stage → List Worker → List (Stage × Worker)
  | [], _ => []
  | item :: rest, ws =>
    if eligible item all then
      match extractWorker item ws with
      | some (w, ws2) => (item, w) :: dispatchAux all rest ws2
      | none => dispatchAux all rest ws
    else dispatchAux all rest ws

/-- One dispatch pass of `queue.signal` over the fetched incomplete stages
`items` and the waiting workers `ws` (the worker set is modelled as a list;
Go map iteration order is unspecified, and no theorem below depends on it). -/
def signalDispatch (items : List Stage) (ws : List Worker) : List (Stage × Worker) :=
  dispatchAux items items ws

/-! ## Build manager (`src/unnamed/part_000`) -/

/-- The distinguished error values the manager observes from its
collaborators: `db.ErrOptimisticLock`, a not-found store error, and any
other failure. -/
inductive StoreErr where
  | notFound
  | optimisticLock
  | other
deriving DecidableEq, Repr

/-- `Manager.Accept`: re-read the stage (`findRes` is the outcome of
`m.Stages.Find`); a find error is returned as-is; if the re-read stage
already has a machine, return `ErrOptimisticLock`; otherwise set machine,
status pending and updated, and return the outcome of the optimistic
`m.Stages.Update` (`updateRes`), together with the stage value handed to the
store (`none` when no update was attempted). -/
def accept (findRes : Except StoreErr Stage) (updateRes : Stage → Option StoreErr)
    (machine : String) (now : Int) : Option StoreErr × Option Stage :=
  match findRes with
  | Except.error e => (some e, none)
  | Except.ok stage =>
    if stage.machine != "" then (some StoreErr.optimisticLock, none)
    else
      let s := { stage with machine := machine, status := Status.pending, updated := now }
      (updateRes s, some s)

/-- Result of `Manager.Watch`: a boolean answer with nil error, an error, or
a runtime panic.  In the source, when `m.Stages.Find` fails the code falls
through to `return stage.IsDone(), nil` with `stage` a nil pointer, which
dereferences nil at run time; that branch is modelled as `nilPanic`. -/
inductive WatchOut where
  | value (b : Bool)
  | failure (e : StoreErr)
  | nilPanic
deriving DecidableEq, Repr

/-- `Manager.Watch`: `cancelledRes` is the outcome of
`m.Scheduler.Cancelled` and `findRes` the outcome of `m.Stages.Find`.  The
source returns the scheduler's boolean when the find SUCCEEDS
(`if err == nil { ... return ok, err }`), and only evaluates
`stage.IsDone()` — on the nil stage — when the find failed. -/
def watch (cancelledRes : Except StoreErr Bool) (findRes : Except StoreErr Stage) : WatchOut :=
  match cancelledRes with
  | Except.error e => WatchOut.failure e
  | Except.ok ok =>
    match findRes with
    | Except.ok _stage => WatchOut.value ok
    | Except.error _ => WatchOut.nilPanic

/-- The two collaborator calls made by `Manager.After`. -/
inductive ManagerCall where
  | updaterDo
  | logStreamDelete
deriving DecidableEq, Repr

/-- `Manager.After`: run the updater, then delete the live log stream.
`updaterRes` / `deleteRes` are the outcomes of the two calls.  The updater
error is appended to the `multierror` accumulator `errs` (modelled as a
list, `[]` standing for a nil error); the log-stream delete error is only
logged in the source — the `if err := m.Logz.Delete(...)` branch body never
touches `errs` — so it is dropped here as well.  The second component
records the calls performed, in order. -/
def afterStep (updaterRes deleteRes : Option StoreErr) :
    List StoreErr × List ManagerCall :=
  let errs : List StoreErr := []
  let errs := match updaterRes with
    | some e => errs ++ [e]
    | none => errs
  let _onlyLogged := deleteRes
  (errs, [ManagerCall.updaterDo, ManagerCall.logStreamDelete])

/-- The distinguishable errors `Manager.Cancel` can return, one per
`fmt.Errorf` site. -/
inductive CancelErr where
  | cannotCancelCompleted
  | cannotUpdateBuild
  | cannotSignalScheduler
  | cannotSetStatus
  | cannotListStages
  | cannotUpdateStage
  | cannotUpdateStep
deriving DecidableEq, Repr

/-- The externally visible side effects of `Manager.Cancel`, recorded in
call order: store writes, the scheduler cancellation signal, the SCM status
send, and the final webhook (with its delivery outcome). -/
inductive CancelEff where
  | updateBuild (b : Build)
  | schedulerCancel (buildID : Int)
  | statusSend (b : Build)
  | updateStage (s : Stage)
  | updateStep (s : Step)
  | webhookSend (b : Build) (delivered : Bool)
deriving DecidableEq, Repr

/-- Outcomes of the collaborator calls `Manager.Cancel` makes, injected as
an environment: whether each write/send succeeds, and the result of
`m.Stages.ListSteps`. -/
structure CancelEnv where
  updateBuildOK : Bool
  schedulerCancelOK : Bool
  statusOK : Bool
  listRes : Except StoreErr (List Stage)
  updateStageOK : Stage → Bool
  updateStepOK : Step → Bool
  webhookOK : Bool

/-- The build mutation at the top of `Manager.Cancel`: status killed,
finished now, started set to now only when it was zero. -/
def killedBuild (build : Build) (now : Int) : Build :=
  { build with
    status := Status.killed
    finished := now
    started := if build.started = 0 then now else build.started }

/-- The step mutation inside the cancel loop: killed when the step had
started, otherwise skipped with started backfilled; stopped set and exit
code 130 in both cases. -/
def cancelStepRow (now : Int) (step : Step) : Step :=
  let s := if step.started ≠ 0 then { step with status := Status.killed }
           else { step with status := Status.skipped, started := now }
  { s with stopped := now, exitCode := 130 }

/-- The stage mutation inside the cancel loop: killed when the stage had
started, otherwise skipped with started backfilled; stopped set in both
cases. -/
def cancelStageRow (now : Int) (stage : Stage) : Stage :=
  let s := if stage.started ≠ 0 then { stage with status := Status.killed }
           else { stage with status := Status.skipped, started := now }
  { s with stopped := now }

/-- The inner step loop of `Manager.Cancel`: done steps are skipped; each
remaining step is rewritten by `cancelStepRow` and written to the step
store; a failed write aborts the whole cancel with an error. -/
def cancelSteps (env : CancelEnv) (now : Int) : List Step → Option CancelErr × List CancelEff
  | [] => (none, [])
  | step :: rest =>
    if step.isDone then cancelSteps env now rest
    else
      let s := cancelStepRow now step
      if env.updateStepOK s then
        let r := cancelSteps env now rest
        (r.1, CancelEff.updateStep s :: r.2)
      else
        (some CancelErr.cannotUpdateStep, [CancelEff.updateStep s])

/-- The stage loop of `Manager.Cancel`: done stages are skipped entirely
(their steps included); each remaining stage is rewritten by
`cancelStageRow`, written to the stage store, and then its steps are
processed; a failed write aborts the whole cancel with an error. -/
def cancelStages (env : CancelEnv) (now : Int) : List Stage → Option CancelErr × List CancelEff
  | [] => (none, [])
  | stage :: rest =>
    if stage.isDone then cancelStages env now rest
    else
      let s := cancelStageRow now stage
      if env.updateStageOK s then
        let r := cancelSteps env now stage.steps
        match r.1 with
        | some e => (some e, CancelEff.updateStage s :: r.2)
        | none =>
          let r2 := cancelStages env now rest
          (r2.1, CancelEff.updateStage s :: (r.2 ++ r2.2))
      else
        (some CancelErr.cannotUpdateStage, [CancelEff.updateStage s])

/-- `Manager.Cancel`: reject terminal builds; otherwise mark the build
killed and persist it, signal the scheduler, send the SCM status when a
user is supplied (`hasUser`), list the build's stages with steps, rewrite
every non-terminal stage and step, and finally send the webhook, whose
failure is logged but not returned.  Each failing collaborator call aborts
with the corresponding error.  All `time.Now()` reads are modelled by the
single instant `now`. -/
def cancel (env : CancelEnv) (build : Build) (hasUser : Bool) (now : Int) :
    Option CancelErr × List CancelEff :=
  if build.status ≠ Status.pending ∧ build.status ≠ Status.running then
    (some CancelErr.cannotCancelCompleted, [])
  else
    let b := killedBuild build now
    let effs0 := [CancelEff.updateBuild b]
    if ¬ env.updateBuildOK then (some CancelErr.cannotUpdateBuild, effs0)
    else
      let effs1 := effs0 ++ [CancelEff.schedulerCancel b.id]
      if ¬ env.schedulerCancelOK then (some CancelErr.cannotSignalScheduler, effs1)
      else
        let effs2 := effs1 ++ (if hasUser then [CancelEff.statusSend b] else [])
        if hasUser ∧ ¬ env.statusOK then (some CancelErr.cannotSetStatus, effs2)
        else
          match env.listRes with
          | Except.error _ => (some CancelErr.cannotListStages, effs2)
          | Except.ok stages =>
            let r := cancelStages env now stages
            match r.1 with
            | some e => (some e, effs2 ++ r.2)
            | none => (none, effs2 ++ r.2 ++ [CancelEff.webhookSend b env.webhookOK])

/-! ## Concrete fixtures used by witnesses and counterexamples -/

/-- A pending master-branch build, the oldest of the fixture repo. -/
def buildMasterOld : Build :=
  { id := 10, repoID := 1, number := 10, status := Status.pending,
    source := "master", started := 0, finished := 0 }

/-- A running master-branch build, newer than `buildMasterOld`. -/
def buildMasterRunning : Build :=
  { id := 11, repoID := 1, number := 11, status := Status.running,
    source := "master", started := 5, finished := 0 }

/-- A pending master-branch build, the newest of the fixture repo. -/
def buildMasterNew : Build :=
  { id := 12, repoID := 1, number := 12, status := Status.pending,
    source := "master", started := 0, finished := 0 }

/-- A terminal build. -/
def buildDone : Build :=
  { id := 13, repoID := 1, number := 13, status := Status.passing,
    source := "master", started := 1, finished := 2 }

/-- A running build owning the cancellation fixtures. -/
def buildRunningFx : Build :=
  { id := 10, repoID := 1, number := 10, status := Status.running,
    source := "master", started := 3, finished := 0 }

/-- A pending, unassigned linux/amd64 stage of `buildMasterOld`. -/
def baseStage : Stage :=
  { id := 100, buildID := 10, repoID := 1, name := "build", number := 1,
    os := "linux", arch := "amd64", variant := "", kernel := "",
    labels := [], machine := "", status := Status.pending,
    started := 0, stopped := 0, updated := 0, limit := 0,
    build := buildMasterOld, steps := [] }

def stageOld : Stage := { baseStage with id := 101, buildID := 10, build := buildMasterOld }

def stageOnRunning : Stage := { baseStage with id := 102, buildID := 11, build := buildMasterRunning }

def stageNew : Stage := { baseStage with id := 103, buildID := 12, build := buildMasterNew }

/-- A waiting linux/amd64 worker carrying one label. -/
def workerLinux : Worker :=
  { os := "linux", arch := "amd64", kernel := "", variant := "", labels := [("team", "core")] }

/-- A stage whose labels equal `workerLinux`'s labels. -/
def stageLabeled : Stage := { baseStage with labels := [("team", "core")] }

/-- A stage with `limit = 1` and an older same-named sibling. -/
def stageLimited : Stage := { baseStage with id := 110, limit := 1 }

def stageOlderSibling : Stage := { baseStage with id := 105 }

/-- A terminal step. -/
def stepDone : Step :=
  { id := 1, stageID := 201, name := "clone", number := 1, status := Status.passing,
    started := 3, stopped := 4, exitCode := 0 }

/-- A running step (`started ≠ 0`). -/
def stepRunning : Step :=
  { id := 2, stageID := 201, name := "test", number := 2, status := Status.running,
    started := 3, stopped := 0, exitCode := 0 }

/-- A pending step (`started = 0`). -/
def stepPending : Step :=
  { id := 3, stageID := 201, name := "deploy", number := 3, status := Status.pending,
    started := 0, stopped := 0, exitCode := 0 }

/-- A running stage with one terminal, one running and one pending step. -/
def stageRunningFx : Stage :=
  { baseStage with
    id := 201
    status := Status.running
    started := 3
    build := buildRunningFx
    steps := [stepDone, stepRunning, stepPending] }

/-- A terminal stage. -/
def stageDoneFx : Stage :=
  { baseStage with
    id := 202
    status := Status.passing
    started := 1
    stopped := 2
    build := buildRunningFx
    steps := [] }

/-- A `Cancel` environment in which every collaborator call succeeds. -/
def envOK (stages : List Stage) : CancelEnv :=
  { updateBuildOK := true, schedulerCancelOK := true, statusOK := true,
    listRes := Except.ok stages, updateStageOK := fun _ => true,
    updateStepOK := fun _ => true, webhookOK := true }

/-- The store writes the cancel loop issues for one non-terminal stage:
the stage row rewrite followed by one step write per non-terminal step. -/
def stageCancelEffs (now : Int) (st : Stage) : List CancelEff :=
  CancelEff.updateStage (cancelStageRow now st) ::
    (st.steps.filter (fun s => !s.isDone)).map
      (fun s => CancelEff.updateStep (cancelStepRow now s))

/-- The predicate of claim C5: an older same-repo, same-name sibling. -/
def olderSameName (stage : Stage) (s : Stage) : Bool :=
  s.repoID == stage.repoID && s.name == stage.name && decide (s.id < stage.id)

/-! ## Theorems -/

theorem lookupKey_eq_some_mem {l : List (String × String)} {k v : String}
    (h : lookupKey l k = some v) : (k, v) ∈ l := by
  induction l with
  | nil => simp [lookupKey] at h
  | cons p rest ih =>
    obtain ⟨k2, v2⟩ := p
    by_cases hk : k2 = k
    · subst hk
      rw [lookupKey, if_pos rfl] at h
      injection h with h
      subst h
      exact List.mem_cons_self _ _
    · rw [lookupKey, if_neg hk] at h
      exact List.mem_cons_of_mem _ (ih h)

theorem lookupKey_none_iff {l : List (String × String)} {k : String} :
    lookupKey l k = none ↔ k ∉ l.map Prod.fst := by
  induction l with
  | nil => simp [lookupKey]
  | cons p rest ih =>
    obtain ⟨k2, v2⟩ := p
    by_cases hk : k2 = k
    · subst hk
      simp [lookupKey]
    · rw [lookupKey, if_neg hk]
      simp only [List.map_cons, List.mem_cons, not_or]
      constructor
      · intro h
        exact ⟨fun hEq => hk hEq.symm, ih.mp h⟩
      · intro h
        exact ih.mpr h.2

theorem checkLabels_lookup_ext {a b : List (String × String)}
    (ha : (a.map Prod.fst).Nodup) (hb : (b.map Prod.fst).Nodup)
    (h : checkLabels a b = true) :
    ∀ k, lookupKey a k = lookupKey b k := by
  unfold checkLabels at h
  simp only [Bool.and_eq_true, beq_iff_eq, List.all_eq_true] at h
  obtain ⟨hlen, hall⟩ := h
  have hall2 : ∀ p ∈ a, lookupKey b p.1 = some p.2 := by
    intro p hp
    simpa using hall p hp
  have hsub : ∀ k ∈ a.map Prod.fst, k ∈ b.map Prod.fst := by
    intro k hk
    obtain ⟨p, hp, hpk⟩ := List.mem_map.mp hk
    have hmem := lookupKey_eq_some_mem (hall2 p hp)
    subst hpk
    exact List.mem_map.mpr ⟨(p.1, p.2), hmem, rfl⟩
  have hfin : (a.map Prod.fst).toFinset = (b.map Prod.fst).toFinset := by
    apply Finset.eq_of_subset_of_card_le
    · intro k hk
      rw [List.mem_toFinset] at hk ⊢
      exact hsub k hk
    · rw [List.toFinset_card_of_nodup ha, List.toFinset_card_of_nodup hb]
      simp [hlen]
  have hkeys : ∀ k, k ∈ a.map Prod.fst ↔ k ∈ b.map Prod.fst := by
    intro k
    rw [← List.mem_toFinset, ← List.mem_toFinset (l := b.map Prod.fst), hfin]
  intro k
  cases hka : lookupKey a k with
  | none =>
    have hnk : k ∉ a.map Prod.fst := lookupKey_none_iff.mp hka
    have hnb : k ∉ b.map Prod.fst := fun hkb => hnk ((hkeys k).mpr hkb)
    exact (lookupKey_none_iff.mpr hnb).symm
  | some v =>
    exact (hall2 (k, v) (lookupKey_eq_some_mem hka)).symm

theorem extractWorker_spec {item : Stage} :
    ∀ {ws : List Worker} {w : Worker} {rest : List Worker},
      extractWorker item ws = some (w, rest) → platformMatch w item = true ∧ w ∈ ws := by
  intro ws
  induction ws with
  | nil =>
    intro w rest h
    simp [extractWorker] at h
  | cons w0 ws0 ih =>
    intro w rest h
    rw [extractWorker] at h
    by_cases hm : platformMatch w0 item = true
    · rw [if_pos hm] at h
      simp only [Option.some.injEq, Prod.mk.injEq] at h
      obtain ⟨h1, _⟩ := h
      subst h1
      exact ⟨hm, List.mem_cons_self _ _⟩
    · rw [if_neg hm] at h
      cases hrec : extractWorker item ws0 with
      | none =>
        rw [hrec] at h
        simp at h
      | some pr =>
        obtain ⟨w2, rest2⟩ := pr
        rw [hrec] at h
        simp only [Option.some.injEq, Prod.mk.injEq] at h
        obtain ⟨h1, _⟩ := h
        subst h1
        obtain ⟨hp, hmem⟩ := ih hrec
        exact ⟨hp, List.mem_cons_of_mem _ hmem⟩

theorem dispatchAux_platformMatch {all : List Stage} :
    ∀ {rest : List Stage} {ws : List Worker} {stage : Stage} {w : Worker},
      (stage, w) ∈ dispatchAux all rest ws → platformMatch w stage = true := by
  intro rest
  induction rest with
  | nil =>
    intro ws stage w h
    simp [dispatchAux] at h
  | cons item rest0 ih =>
    intro ws stage w h
    rw [dispatchAux] at h
    by_cases he : eligible item all = true
    · rw [if_pos he] at h
      cases hrec : extractWorker item ws with
      | none =>
        rw [hrec] at h
        exact ih h
      | some pr =>
        obtain ⟨w2, ws2⟩ := pr
        rw [hrec] at h
        rcases List.mem_cons.mp h with heq | hmem
        · injection heq with h1 h2
          subst h1
          subst h2
          exact (extractWorker_spec hrec).1
        · exact ih hmem
    · rw [if_neg he] at h
      exact ih h

/-- C2: every (stage, worker) pair delivered by one dispatch pass satisfies
the platform-match invariant: equal os and arch, variant and kernel empty
or equal, and the label maps equal as maps (same key set, same values,
expressed as lookup extensionality; Go maps have distinct keys, which is
the two Nodup hypotheses). -/
theorem queue_dispatch_platform_match
    (items : List Stage) (ws : List Worker) (stage : Stage) (w : Worker)
    (hmem : (stage, w) ∈ signalDispatch items ws)
    (hs : (stage.labels.map Prod.fst).Nodup)
    (hw : (w.labels.map Prod.fst).Nodup) :
    w.os = stage.os ∧ w.arch = stage.arch ∧
    (stage.variant = "" ∨ stage.variant = w.variant) ∧
    (stage.kernel = "" ∨ stage.kernel = w.kernel) ∧
    (∀ k, lookupKey stage.labels k = lookupKey w.labels k) := by
  have hpm : platformMatch w stage = true := dispatchAux_platformMatch hmem
  unfold platformMatch at hpm
  simp only [Bool.and_eq_true, beq_iff_eq, Bool.or_eq_true] at hpm
  obtain ⟨⟨⟨⟨hos, harch⟩, hvar⟩, hker⟩, hlab⟩ := hpm
  refine ⟨hos, harch, hvar, hker, ?_⟩
  by_cases hc : decide (stage.labels.length > 0) = true ∨ decide (w.labels.length > 0) = true
  · rw [if_pos hc] at hlab
    exact checkLabels_lookup_ext hs hw hlab
  · simp only [decide_eq_true_eq, not_or, not_lt, Nat.le_zero] at hc
    have h1 : stage.labels = [] := List.length_eq_zero.mp hc.1
    have h2 : w.labels = [] := List.length_eq_zero.mp hc.2
    intro k
    rw [h1, h2]

/-- Witness for C2: a concrete dispatch pass delivering the labeled fixture
stage to the matching worker. -/
theorem queue_dispatch_platform_match_witness :
    (stageLabeled, workerLinux) ∈ signalDispatch [stageLabeled] [workerLinux] ∧
    workerLinux.os = stageLabeled.os ∧
    lookupKey stageLabeled.labels "team" = lookupKey workerLinux.labels "team" := by
  have hmem : (stageLabeled, workerLinux) ∈ signalDispatch [stageLabeled] [workerLinux] := by
    decide
  have h := queue_dispatch_platform_match [stageLabeled] [workerLinux] stageLabeled workerLinux
    hmem (by decide) (by decide)
  exact ⟨hmem, h.1, h.2.2.2.2 "team"⟩

/-- C5: in a dispatch pass, a stage with `limit = 0` always passes the
concurrency-limit filter, and a stage with `limit = L > 0` passes iff fewer
than `L` other stages of the fetched list share its repo and name with a
smaller id.  (For `L > 0` the left disjunct is false, so the equivalence is
exactly the count bound of the claim.) -/
theorem withinLimits_spec (stage : Stage) (siblings : List Stage) :
    withinLimits stage siblings = true ↔
      (stage.limit = 0 ∨
        (((siblings.filter (olderSameName stage)).length : Int) < stage.limit)) := by
  unfold withinLimits
  by_cases h : stage.limit = 0
  · simp [h]
  · have hbe : (stage.limit == 0) = false := by simpa using h
    rw [hbe]
    have hfc : ∀ s ∈ siblings,
        (s.repoID == stage.repoID && s.id != stage.id &&
          s.name == stage.name && decide (s.id < stage.id))
        = olderSameName stage s := by
      intro s _
      unfold olderSameName
      by_cases hlt : s.id < stage.id
      · have hne : (s.id != stage.id) = true := by
          simpa using ne_of_lt hlt
        simp [hlt, hne]
      · simp [hlt]
    rw [List.filter_congr hfc]
    simp [h]

/-- C10: the branch-precedence check accepts every stage whose embedded
build is already running, regardless of the sibling list. -/
theorem withinBranchLimits_running (stage : Stage) (siblings : List Stage)
    (h : stage.build.status = Status.running) :
    withinBranchLimits stage siblings = true := by
  simp [withinBranchLimits, h]

/-- Witness for C10 at a concrete stage of a running build. -/
theorem withinBranchLimits_running_witness :
    stageOnRunning.build.status = Status.running ∧
    withinBranchLimits stageOnRunning [stageOld, stageOnRunning] = true :=
  ⟨rfl, withinBranchLimits_running stageOnRunning [stageOld, stageOnRunning] rfl⟩

theorem findMasterSibling_eq_some {stage : Stage} :
    ∀ {l : List Stage} {s : Stage}, findMasterSibling stage l = some s →
      s ∈ l ∧ s.buildID ≠ stage.buildID ∧ s.repoID = stage.repoID ∧
      s.build.source = "master" ∧ stage.build.source = "master" := by
  intro l
  induction l with
  | nil =>
    intro s h
    simp [findMasterSibling] at h
  | cons x rest ih =>
    intro s h
    rw [findMasterSibling] at h
    by_cases h1 : (x.buildID == stage.buildID || x.repoID != stage.repoID) = true
    · rw [if_pos h1] at h
      obtain ⟨hm, hrest⟩ := ih h
      exact ⟨List.mem_cons_of_mem _ hm, hrest⟩
    · rw [if_neg h1] at h
      by_cases h2 : (x.build.source == "master" && stage.build.source == "master") = true
      · rw [if_pos h2] at h
        injection h with h
        subst h
        simp only [Bool.or_eq_true, beq_iff_eq, bne_iff_ne, ne_eq, not_or, not_not] at h1
        simp only [Bool.and_eq_true, beq_iff_eq] at h2
        exact ⟨List.mem_cons_self _ _, h1.1, h1.2, h2.1, h2.2⟩
      · rw [if_neg h2] at h
        obtain ⟨hm, hrest⟩ := ih h
        exact ⟨List.mem_cons_of_mem _ hm, hrest⟩

theorem findMasterSibling_ne_none {stage : Stage} :
    ∀ {l : List Stage} {s : Stage}, s ∈ l → s.buildID ≠ stage.buildID →
      s.repoID = stage.repoID → s.build.source = "master" →
      stage.build.source = "master" → findMasterSibling stage l ≠ none := by
  intro l
  induction l with
  | nil =>
    intro s hmem
    simp at hmem
  | cons x rest ih =>
    intro s hmem hne hrepo hssrc hstsrc
    rw [findMasterSibling]
    by_cases h1 : (x.buildID == stage.buildID || x.repoID != stage.repoID) = true
    · rw [if_pos h1]
      rcases List.mem_cons.mp hmem with heq | hm
      · exfalso
        subst heq
        simp only [Bool.or_eq_true, beq_iff_eq, bne_iff_ne, ne_eq] at h1
        rcases h1 with h | h
        · exact hne h
        · exact h hrepo
      · exact ih hm hne hrepo hssrc hstsrc
    · rw [if_neg h1]
      by_cases h2 : (x.build.source == "master" && stage.build.source == "master") = true
      · rw [if_pos h2]
        simp
      · rw [if_neg h2]
        rcases List.mem_cons.mp hmem with heq | hm
        · exfalso
          subst heq
          simp only [Bool.and_eq_true, beq_iff_eq] at h2
          exact h2 ⟨hssrc, hstsrc⟩
        · exact ih hm hne hrepo hssrc hstsrc

theorem withinBranchLimits_true_of_all_newer (a : Stage) (items : List Stage)
    (h : ∀ s ∈ items, s.buildID ≠ a.buildID → s.repoID = a.repoID →
      s.build.source = "master" → a.buildID < s.buildID) :
    withinBranchLimits a items = true := by
  unfold withinBranchLimits
  by_cases hr : (a.build.status == Status.running) = true
  · rw [if_pos hr]
  · rw [if_neg hr]
    cases hms : findMasterSibling a items with
    | none => rfl
    | some s =>
      obtain ⟨hmem, hne, hrepo, hsrc, _⟩ := findMasterSibling_eq_some hms
      simpa using h s hmem hne hrepo hsrc

/-- Counterexample for C6: two incomplete stages of the same repo, both on
master-source builds with distinct build ids, where the newer build is
already running — the stage of the larger build id passes the
branch-precedence check (and the whole eligibility filter) even though the
older build's stage is still incomplete. -/
theorem branch_precedence_counterexample :
    stageOld.repoID = stageOnRunning.repoID ∧
    stageOld.build.source = "master" ∧ stageOnRunning.build.source = "master" ∧
    stageOld.buildID < stageOnRunning.buildID ∧
    stageOld.isDone = false ∧ stageOnRunning.isDone = false ∧
    withinBranchLimits stageOnRunning [stageOld, stageOnRunning] = true ∧
    eligible stageOnRunning [stageOld, stageOnRunning] = true := by
  decide

/-- C6 (amended): for a pair of incomplete stages in the same repo on
distinct master-source builds, where the two builds are respectively the
oldest and the newest master-source builds of that repo in the fetched
list and the newer stage's build is not yet running: the stage of the
older build passes the branch-precedence check and the stage of the newer
build is filtered out (a stage whose build is already running bypasses the
check, per C10). -/
theorem branch_precedence_amended
    (a b : Stage) (items : List Stage)
    (ha : a ∈ items)
    (hrepo : a.repoID = b.repoID)
    (hne : a.buildID ≠ b.buildID)
    (hasrc : a.build.source = "master") (hbsrc : b.build.source = "master")
    (hbrun : b.build.status ≠ Status.running)
    (hnewest : ∀ s ∈ items, s.buildID ≠ b.buildID → s.repoID = b.repoID →
      s.build.source = "master" → s.buildID < b.buildID)
    (holdest : ∀ s ∈ items, s.buildID ≠ a.buildID → s.repoID = a.repoID →
      s.build.source = "master" → a.buildID < s.buildID) :
    withinBranchLimits a items = true ∧ withinBranchLimits b items = false := by
  refine ⟨withinBranchLimits_true_of_all_newer a items holdest, ?_⟩
  unfold withinBranchLimits
  have hr : ¬ ((b.build.status == Status.running) = true) := by simpa using hbrun
  rw [if_neg hr]
  cases hms : findMasterSibling b items with
  | none =>
    exact absurd hms (findMasterSibling_ne_none ha hne hrepo hasrc hbsrc)
  | some s =>
    obtain ⟨hmem, hsne, hsrepo, hssrc, _⟩ := findMasterSibling_eq_some hms
    have hlt : s.buildID < b.buildID := hnewest s hmem hsne hsrepo hssrc
    exact decide_eq_false (by omega)

/-- Witness for the amended C6 at a concrete pair: the stage of build 10
passes, the stage of the pending build 12 is filtered out. -/
theorem branch_precedence_amended_witness :
    withinBranchLimits stageOld [stageOld, stageNew] = true ∧
    withinBranchLimits stageNew [stageOld, stageNew] = false :=
  branch_precedence_amended stageOld stageNew [stageOld, stageNew]
    (by decide) (by decide) (by decide) (by decide) (by decide) (by decide)
    (by decide) (by decide)

/-- C1: `Accept` on the re-read stage returns the optimistic-lock error when
the stage already has a machine; otherwise it persists exactly the stage
with `machine`, `status = pending` and `updated = now` set, returns the
store's outcome, and in particular propagates the store's optimistic-lock
failure. -/
theorem accept_spec (stage : Stage) (updateRes : Stage → Option StoreErr)
    (machine : String) (now : Int) :
    (stage.machine ≠ "" →
      accept (Except.ok stage) updateRes machine now = (some StoreErr.optimisticLock, none)) ∧
    (stage.machine = "" →
      accept (Except.ok stage) updateRes machine now =
        (updateRes { stage with machine := machine, status := Status.pending, updated := now },
          some { stage with machine := machine, status := Status.pending, updated := now }) ∧
      (updateRes { stage with machine := machine, status := Status.pending, updated := now } =
          some StoreErr.optimisticLock →
        (accept (Except.ok stage) updateRes machine now).1 = some StoreErr.optimisticLock)) := by
  constructor
  · intro h
    simp [accept, h]
  · intro h
    refine ⟨by simp [accept, h], ?_⟩
    intro hlock
    simp [accept, h, hlock]

/-- Witness for C1: accepting an unassigned concrete stage with a successful
store update writes the mutated stage. -/
theorem accept_spec_witness :
    baseStage.machine = "" ∧
    accept (Except.ok baseStage) (fun _ => none) "agent-1" 99 =
      (none, some { baseStage with machine := "agent-1", status := Status.pending, updated := 99 }) :=
  ⟨rfl, ((accept_spec baseStage (fun _ => none) "agent-1" 99).2 rfl).1⟩

/-- C7: cancelling a build whose status is neither pending nor running
returns the "cannot cancel completed build" error with an empty effect
list: no store write, no scheduler signal, no status send, no webhook. -/
theorem cancel_completed_build (env : CancelEnv) (build : Build) (hasUser : Bool) (now : Int)
    (h1 : build.status ≠ Status.pending) (h2 : build.status ≠ Status.running) :
    cancel env build hasUser now = (some CancelErr.cannotCancelCompleted, []) := by
  unfold cancel
  rw [if_pos ⟨h1, h2⟩]

/-- Witness for C7 at a concrete passing build. -/
theorem cancel_completed_build_witness :
    cancel (envOK []) buildDone true 7 = (some CancelErr.cannotCancelCompleted, []) :=
  cancel_completed_build (envOK []) buildDone true 7 (by decide) (by decide)

/-- C4 is a code bug: at the failing input — no cancellation signalled, the
stage found and already terminal — `Watch` returns the scheduler's `false`
with a nil error instead of `stage.is_done = true`; and when the stage
lookup fails, the code dereferences the nil stage.  This theorem evaluates
the embedded code at the failing input. -/
theorem watch_found_stage_ignores_isDone :
    stageDoneFx.isDone = true ∧
    watch (Except.ok false) (Except.ok stageDoneFx) = WatchOut.value false ∧
    watch (Except.ok false) (Except.error StoreErr.notFound) = WatchOut.nilPanic :=
  ⟨rfl, rfl, rfl⟩

/-- Counterexample for C8: when the updater succeeds and the log-stream
teardown fails, `After` returns a nil error (empty multi-error) even though
the teardown was attempted and failed — the teardown failure is never
accumulated. -/
theorem after_teardown_error_dropped :
    afterStep none (some StoreErr.other) =
      ([], [ManagerCall.updaterDo, ManagerCall.logStreamDelete]) := rfl

/-- C8 (amended): `After` always attempts both sub-steps — the updater and
the log-stream teardown — in order, even when the updater fails, but the
returned multi-error holds exactly the updater's error; a teardown failure
is only logged and never returned. -/
theorem after_attempts_both_returns_updater_error (updaterRes deleteRes : Option StoreErr) :
    (afterStep updaterRes deleteRes).2 = [ManagerCall.updaterDo, ManagerCall.logStreamDelete] ∧
    (afterStep updaterRes deleteRes).1 = updaterRes.toList := by
  cases updaterRes <;> simp [afterStep, Option.toList]

theorem cancelSteps_all_ok (env : CancelEnv) (now : Int)
    (hok : ∀ s, env.updateStepOK s = true) :
    ∀ steps : List Step,
      cancelSteps env now steps =
        (none, (steps.filter (fun s => !s.isDone)).map
          (fun s => CancelEff.updateStep (cancelStepRow now s))) := by
  intro steps
  induction steps with
  | nil => rfl
  | cons step rest ih =>
    rw [cancelSteps]
    by_cases hd : step.isDone = true
    · rw [if_pos hd, ih, List.filter_cons]
      simp [hd]
    · rw [if_neg hd, if_pos (hok (cancelStepRow now step)), ih, List.filter_cons]
      simp [Bool.not_eq_true] at hd
      simp [hd]

theorem cancelStages_all_ok (env : CancelEnv) (now : Int)
    (hst : ∀ s, env.updateStageOK s = true) (hsp : ∀ s, env.updateStepOK s = true) :
    ∀ stages : List Stage,
      cancelStages env now stages =
        (none, (stages.filter (fun s => !s.isDone)).flatMap (stageCancelEffs now)) := by
  intro stages
  induction stages with
  | nil => rfl
  | cons stage rest ih =>
    rw [cancelStages]
    by_cases hd : stage.isDone = true
    · rw [if_pos hd, ih, List.filter_cons]
      simp [hd]
    · rw [if_neg hd, if_pos (hst (cancelStageRow now stage)),
        cancelSteps_all_ok env now hsp stage.steps, ih, List.filter_cons]
      simp only [Bool.not_eq_true] at hd
      simp [hd, stageCancelEffs]

theorem cancelStepRow_spec (now : Int) (step : Step) :
    (cancelStepRow now step).isDone = true ∧
    (cancelStepRow now step).stopped = now ∧
    (cancelStepRow now step).exitCode = 130 ∧
    (step.started ≠ 0 → (cancelStepRow now step).status = Status.killed ∧
      (cancelStepRow now step).started = step.started) ∧
    (step.started = 0 → (cancelStepRow now step).status = Status.skipped ∧
      (cancelStepRow now step).started = now) := by
  by_cases h : step.started = 0 <;>
    simp [cancelStepRow, h, Step.isDone, Status.isDone]

theorem cancelStageRow_spec (now : Int) (stage : Stage) :
    (cancelStageRow now stage).isDone = true ∧
    (cancelStageRow now stage).stopped = now ∧
    (stage.started ≠ 0 → (cancelStageRow now stage).status = Status.killed ∧
      (cancelStageRow now stage).started = stage.started) ∧
    (stage.started = 0 → (cancelStageRow now stage).status = Status.skipped ∧
      (cancelStageRow now stage).started = now) := by
  by_cases h : stage.started = 0 <;>
    simp [cancelStageRow, h, Stage.isDone, Status.isDone]

theorem cancel_all_ok (env : CancelEnv) (build : Build) (hasUser : Bool) (now : Int)
    (stages : List Stage)
    (hb : build.status = Status.pending ∨ build.status = Status.running)
    (h1 : env.updateBuildOK = true) (h2 : env.schedulerCancelOK = true)
    (h3 : env.statusOK = true) (hlist : env.listRes = Except.ok stages)
    (hst : ∀ s, env.updateStageOK s = true) (hsp : ∀ s, env.updateStepOK s = true) :
    cancel env build hasUser now =
      (none,
        [CancelEff.updateBuild (killedBuild build now),
          CancelEff.schedulerCancel (killedBuild build now).id] ++
        (if hasUser then [CancelEff.statusSend (killedBuild build now)] else []) ++
        (stages.filter (fun s => !s.isDone)).flatMap (stageCancelEffs now) ++
        [CancelEff.webhookSend (killedBuild build now) env.webhookOK]) := by
  have hcond : ¬ (build.status ≠ Status.pending ∧ build.status ≠ Status.running) := by
    rcases hb with h | h <;> simp [h]
  rw [cancel, if_neg hcond]
  simp only [h1, h2, h3, hlist, cancelStages_all_ok env now hst hsp]
  simp [List.append_assoc]

/-- C3: cancelling a pending or running build with all collaborator calls
succeeding returns success; every stage of the fetched list that was not
already terminal is written back exactly once as `cancelStageRow` — which
is terminal, is `killed` when it had started and `skipped` with `started`
backfilled otherwise, and has `stopped = now` — and every non-terminal
step of such a stage is written back as `cancelStepRow` — terminal by the
same started-rule, with `stopped = now` and `exit_code = 130`; conversely
every stage or step write in the effect list arises this way from a
non-terminal stage (resp. a non-terminal step of a non-terminal stage),
so already-terminal stages and steps receive no write. -/
theorem cancel_marks_all_terminal
    (env : CancelEnv) (build : Build) (hasUser : Bool) (now : Int) (stages : List Stage)
    (hb : build.status = Status.pending ∨ build.status = Status.running)
    (h1 : env.updateBuildOK = true) (h2 : env.schedulerCancelOK = true)
    (h3 : env.statusOK = true) (hlist : env.listRes = Except.ok stages)
    (hst : ∀ s, env.updateStageOK s = true) (hsp : ∀ s, env.updateStepOK s = true) :
    (cancel env build hasUser now).1 = none ∧
    (∀ st ∈ stages, st.isDone = false →
      CancelEff.updateStage (cancelStageRow now st) ∈ (cancel env build hasUser now).2 ∧
      (cancelStageRow now st).isDone = true ∧
      (cancelStageRow now st).stopped = now ∧
      (st.started ≠ 0 → (cancelStageRow now st).status = Status.killed ∧
        (cancelStageRow now st).started = st.started) ∧
      (st.started = 0 → (cancelStageRow now st).status = Status.skipped ∧
        (cancelStageRow now st).started = now) ∧
      (∀ sp ∈ st.steps, sp.isDone = false →
        CancelEff.updateStep (cancelStepRow now sp) ∈ (cancel env build hasUser now).2 ∧
        (cancelStepRow now sp).isDone = true ∧
        (cancelStepRow now sp).stopped = now ∧
        (cancelStepRow now sp).exitCode = 130 ∧
        (sp.started ≠ 0 → (cancelStepRow now sp).status = Status.killed ∧
          (cancelStepRow now sp).started = sp.started) ∧
        (sp.started = 0 → (cancelStepRow now sp).status = Status.skipped ∧
          (cancelStepRow now sp).started = now))) ∧
    (∀ x, CancelEff.updateStage x ∈ (cancel env build hasUser now).2 →
      ∃ st, st ∈ stages ∧ st.isDone = false ∧ x = cancelStageRow now st) ∧
    (∀ x, CancelEff.updateStep x ∈ (cancel env build hasUser now).2 →
      ∃ st sp, st ∈ stages ∧ st.isDone = false ∧ sp ∈ st.steps ∧ sp.isDone = false ∧
        x = cancelStepRow now sp) := by
  have hE := cancel_all_ok env build hasUser now stages hb h1 h2 h3 hlist hst hsp
  rw [hE]
  refine ⟨rfl, ?_, ?_, ?_⟩
  · intro st hstm hdone
    have hfil : st ∈ stages.filter (fun s => !s.isDone) :=
      List.mem_filter.mpr ⟨hstm, by simp [hdone]⟩
    have hhead : CancelEff.updateStage (cancelStageRow now st) ∈
        (stages.filter (fun s => !s.isDone)).flatMap (stageCancelEffs now) :=
      List.mem_flatMap.mpr ⟨st, hfil, List.mem_cons_self _ _⟩
    obtain ⟨hi1, hi2, hi3, hi4⟩ := cancelStageRow_spec now st
    refine ⟨by simp [hhead], hi1, hi2, hi3, hi4, ?_⟩
    intro sp hspm hspdone
    have hspfil : sp ∈ st.steps.filter (fun s => !s.isDone) :=
      List.mem_filter.mpr ⟨hspm, by simp [hspdone]⟩
    have hspEff : CancelEff.updateStep (cancelStepRow now sp) ∈
        (stages.filter (fun s => !s.isDone)).flatMap (stageCancelEffs now) := by
      refine List.mem_flatMap.mpr ⟨st, hfil, ?_⟩
      exact List.mem_cons_of_mem _ (List.mem_map.mpr ⟨sp, hspfil, rfl⟩)
    obtain ⟨hj1, hj2, hj3, hj4, hj5⟩ := cancelStepRow_spec now sp
    exact ⟨by simp [hspEff], hj1, hj2, hj3, hj4, hj5⟩
  · intro x hx
    rw [List.mem_append, List.mem_append, List.mem_append] at hx
    rcases hx with ((hx | hx) | hx) | hx
    · simp at hx
    · by_cases hu : hasUser = true <;> simp [hu] at hx
    · obtain ⟨st, hfil, hin⟩ := List.mem_flatMap.mp hx
      obtain ⟨hstm, hnd⟩ := List.mem_filter.mp hfil
      rcases List.mem_cons.mp hin with heq | hmap
      · injection heq with h
        exact ⟨st, hstm, by simpa using hnd, h⟩
      · obtain ⟨sp, _, heq⟩ := List.mem_map.mp hmap
        cases heq
    · simp at hx
  · intro x hx
    rw [List.mem_append, List.mem_append, List.mem_append] at hx
    rcases hx with ((hx | hx) | hx) | hx
    · simp at hx
    · by_cases hu : hasUser = true <;> simp [hu] at hx
    · obtain ⟨st, hfil, hin⟩ := List.mem_flatMap.mp hx
      obtain ⟨hstm, hnd⟩ := List.mem_filter.mp hfil
      rcases List.mem_cons.mp hin with heq | hmap
      · cases heq
      · obtain ⟨sp, hspfil, heq⟩ := List.mem_map.mp hmap
        obtain ⟨hspm, hspnd⟩ := List.mem_filter.mp hspfil
        injection heq with h
        exact ⟨st, sp, hstm, by simpa using hnd, hspm, by simpa using hspnd, h.symm⟩
    · simp at hx

/-- Witness for C3 on a concrete build with a running stage (one done,
one running, one pending step) and an already-terminal stage. -/
theorem cancel_marks_all_terminal_witness :
    (cancel (envOK [stageRunningFx, stageDoneFx]) buildRunningFx true 9).1 = none ∧
    CancelEff.updateStage (cancelStageRow 9 stageRunningFx) ∈
      (cancel (envOK [stageRunningFx, stageDoneFx]) buildRunningFx true 9).2 ∧
    CancelEff.updateStep (cancelStepRow 9 stepRunning) ∈
      (cancel (envOK [stageRunningFx, stageDoneFx]) buildRunningFx true 9).2 ∧
    (cancelStepRow 9 stepRunning).status = Status.killed ∧
    (cancelStepRow 9 stepPending).status = Status.skipped := by
  have h := cancel_marks_all_terminal (envOK [stageRunningFx, stageDoneFx]) buildRunningFx
    true 9 [stageRunningFx, stageDoneFx] (Or.inr rfl) rfl rfl rfl rfl
    (fun _ => rfl) (fun _ => rfl)
  have hstage := h.2.1 stageRunningFx (by decide) (by decide)
  have hrun := hstage.2.2.2.2.2 stepRunning (by decide) (by decide)
  have hpend := hstage.2.2.2.2.2 stepPending (by decide) (by decide)
  exact ⟨h.1, hstage.1, hrun.1, (hrun.2.2.2.2.1 (by decide)).1,
    (hpend.2.2.2.2.2 (by decide)).1⟩

/-- C9: during `Cancel` of a pending or running build with a user supplied,
an SCM status-send failure is fatal — the call returns the status error —
whereas a webhook delivery failure on the otherwise-successful path is
only logged: the call still returns success, with the failed webhook send
recorded as its last effect. -/
theorem cancel_status_fatal_webhook_best_effort
    (env : CancelEnv) (build : Build) (now : Int)
    (hb : build.status = Status.pending ∨ build.status = Status.running)
    (h1 : env.updateBuildOK = true) (h2 : env.schedulerCancelOK = true) :
    (env.statusOK = false →
      cancel env build true now =
        (some CancelErr.cannotSetStatus,
          [CancelEff.updateBuild (killedBuild build now),
            CancelEff.schedulerCancel (killedBuild build now).id,
            CancelEff.statusSend (killedBuild build now)])) ∧
    (∀ stages : List Stage, env.statusOK = true → env.listRes = Except.ok stages →
      (∀ s, env.updateStageOK s = true) → (∀ s, env.updateStepOK s = true) →
      env.webhookOK = false →
      (cancel env build true now).1 = none ∧
      CancelEff.webhookSend (killedBuild build now) false ∈ (cancel env build true now).2) := by
  have hcond : ¬ (build.status ≠ Status.pending ∧ build.status ≠ Status.running) := by
    rcases hb with h | h <;> simp [h]
  constructor
  · intro hs
    rw [cancel, if_neg hcond]
    simp [h1, h2, hs]
  · intro stages hs hlist hst hsp hwh
    have hE := cancel_all_ok env build true now stages hb h1 h2 hs hlist hst hsp
    rw [hE, hwh]
    exact ⟨rfl, by simp⟩

/-- Witness for C9: a failing status send aborts a concrete cancel with the
status error; a failing webhook still lets it return success. -/
theorem cancel_status_fatal_webhook_best_effort_witness :
    cancel { envOK [] with statusOK := false } buildRunningFx true 4 =
      (some CancelErr.cannotSetStatus,
        [CancelEff.updateBuild (killedBuild buildRunningFx 4),
          CancelEff.schedulerCancel (killedBuild buildRunningFx 4).id,
          CancelEff.statusSend (killedBuild buildRunningFx 4)]) ∧
    (cancel { envOK [] with webhookOK := false } buildRunningFx true 4).1 = none := by
  constructor
  · exact (cancel_status_fatal_webhook_best_effort { envOK [] with statusOK := false }
      buildRunningFx 4 (Or.inr rfl) rfl rfl).1 rfl
  · exact ((cancel_status_fatal_webhook_best_effort { envOK [] with webhookOK := false }
      buildRunningFx 4 (Or.inr rfl) rfl rfl).2 [] rfl rfl
      (fun _ => rfl) (fun _ => rfl) rfl).1

end Drone
